import Mathlib

/-!
Verification of the podcast feed-to-archive synchronization pipeline
(`podcast_get.py`) against its natural-language specification.

The Python source is shallowly embedded: pure helpers (`clean_filename`,
`out_date`, `date_sort`, filename derivation) become Lean functions; the
effectful pipeline (`process_podcast`, the per-source loop in `main`) becomes
a function from an explicit file-system state to a result record carrying the
new state, the list of performed side effects (network fetches, file writes,
directory creations, dry-run pauses) and the Python exception, if any, that
escaped.  External collaborators (the network, the local file reader, the XML
parser, the regex engine) are parameters: a regex with one capturing group is
modelled by its `findall` function, the network by a partial map from URL to
response.
-/

set_option maxRecDepth 100000

/-- Python exceptions that the script can raise or catch.  Only the kinds the
source can actually produce are modelled. -/
inductive PyErr where
  /-- Python `KeyError`: missing dictionary key (absent config filter). -/
  | keyError
  /-- Python `IndexError`: `findall(...)[0]` on an empty match list. -/
  | indexError
  /-- Python `AttributeError`: attribute access on an object lacking it
      (`None.get`, or `str.decode` which does not exist in Python 3). -/
  | attributeError
  /-- Python `TypeError`: e.g. item assignment on `None` when `mutagen.File`
      fails to recognize the container. -/
  | typeError
  /-- A `requests` connection/timeout error. -/
  | connectionError
  /-- Python `FileNotFoundError` from `open` on a missing local path. -/
  | fileNotFoundError
  /-- Python `ValueError` from `datetime.strptime` on an unparsable date. -/
  | valueError
deriving DecidableEq, Repr

/-! ## FilenameSanitizer: `clean_filename` (source lines 126-149) -/

/-- The characters Python's `re` module (and `str.isspace`) treats as
whitespace, i.e. what `\s` matches in a `str` pattern. -/
def isPySpace (c : Char) : Bool :=
  let n := c.toNat
  (9 ≤ n && n ≤ 13) || (28 ≤ n && n ≤ 31) || n == 32 || n == 0x85 ||
  n == 0xA0 || n == 0x1680 || (0x2000 ≤ n && n ≤ 0x200A) || n == 0x2028 ||
  n == 0x2029 || n == 0x202F || n == 0x205F || n == 0x3000

/-- The `good_character` string built at source lines 140-143.  The third and
fourth blocks are `good_character.lower()` applied to the first two, written
out because Python's `str.lower` maps each of these Latin-1 letters to the
single character shown. -/
def good_character : String :=
  "ABCDEFGHIJKLMNOPQRSTUVWXYZ"
  ++ "ÀÈÌÒÙÁÉÍÓÚÝÂÊÎÔÛÄËÏÖÜŸÃÑÕÅÆŒÇÐØ"
  ++ "abcdefghijklmnopqrstuvwxyz"
  ++ "àèìòùáéíóúýâêîôûäëïöüÿãñõåæœçðø"
  ++ "1234567890-_.ß"

/-- One pass of `re.sub(r"\s+", '_', file_str)`: each maximal run of
whitespace becomes a single underscore.  The flag records whether the
previous character was whitespace (i.e. whether we are inside a run whose
underscore has already been emitted). -/
def subWsAux (prevSpace : Bool) : List Char → List Char
  | [] => []
  | c :: cs =>
    if isPySpace c then
      if prevSpace then subWsAux true cs else '_' :: subWsAux true cs
    else c :: subWsAux false cs

/-- Function `clean_filename` (source lines 126-149): collapse whitespace runs to `_`,
then keep exactly the characters of `good_character`
(`''.join(lett if lett in good_character else '' for lett in file_str)`). -/
def clean_filename (file_str : String) : String :=
  String.mk ((subWsAux false file_str.data).filter
    fun lett => decide (lett ∈ good_character.data))

/-! ## Dates: `extract_date` / `out_date` (source lines 44-62, 91-105)

`extract_date` parses `pubDate` with `datetime.strptime` against
`"%a, %d %b %Y %H:%M:%S %z"`, producing a timezone-aware `datetime`.  The
embedding carries the already-parsed value as a record; Python's comparison
of aware datetimes is comparison of their UTC instants, modelled by
`instant`. -/

/-- A parsed timezone-aware `datetime` as produced by `strptime` with the
source's format (no sub-second part; `tzMinutes` is the UTC offset from
`%z`, in minutes). -/
structure PyDateTime where
  year : Nat
  month : Nat
  day : Nat
  hour : Nat
  minute : Nat
  second : Nat
  tzMinutes : Int
deriving DecidableEq, Repr

/-- Days since 1970-01-01 of a civil date (Howard Hinnant's algorithm;
Python `datetime` years are at least 1, so `Nat` arithmetic suffices up to
the final recentering). -/
def daysFromCivil (y m d : Nat) : Int :=
  let yy := if m ≤ 2 then y - 1 else y
  let era := yy / 400
  let yoe := yy % 400
  let mp := (m + 9) % 12
  let doy := (153 * mp + 2) / 5 + d - 1
  let doe := yoe * 365 + yoe / 4 - yoe / 100 + doy
  (((era * 146097 + doe : Nat)) : Int) - 719468

/-- The UTC instant (in seconds) of an aware datetime; Python compares aware
datetimes by this value. -/
def instant (dt : PyDateTime) : Int :=
  ((daysFromCivil dt.year dt.month dt.day * 24 + dt.hour) * 60
    + dt.minute - dt.tzMinutes) * 60 + dt.second

/-- Zero-pad a number to a fixed width, as `strftime` does for `%Y`, `%m`,
`%d`. -/
def padZero (w n : Nat) : String :=
  let s := toString n
  String.mk (List.replicate (w - s.length) '0') ++ s

/-- Function `out_date` (source lines 91-105): `strftime(date_object, '%Y-%m-%d')`. -/
def out_date (dt : PyDateTime) : String :=
  padZero 4 dt.year ++ "-" ++ padZero 2 dt.month ++ "-" ++ padZero 2 dt.day

/-! ## Feed items -/

/-- One `channel/item` element, with the fields the script reads.  `pubDate`
holds the value `extract_date` parses out of the `pubDate` text;
`episodeArtUrl` is the `href` of the namespaced `itunes:image` element when
present (`episode.find('.//itunes:image', ...)` returns `None` otherwise,
and the `AttributeError` from `.get` on `None` is caught at source lines
200-206). -/
structure Episode where
  title : String
  description : String
  pubDate : PyDateTime
  enclosureUrl : String
  enclosureType : String
  episodeArtUrl : Option String
deriving DecidableEq, Repr

/-- Function `extract_date` (source lines 44-62): the parsed `pubDate` of an item. -/
def extract_date (ep : Episode) : PyDateTime := ep.pubDate

/-- The sort key actually compared by `sorted(..., key=extract_date)`:
Python orders aware datetimes by UTC instant. -/
def pubInstant (ep : Episode) : Int := instant (extract_date ep)

/-- Function `date_sort` (source lines 108-123): `sorted(episode_list,
key=extract_date)`.  Python's `sorted` is an ascending stable sort; so is
`List.insertionSort` with the reflexive `≤` comparison on the key, and any
two ascending stable sorts agree, so this is extensionally the source
function. -/
def date_sort (l : List Episode) : List Episode :=
  List.insertionSort (fun a b => pubInstant a ≤ pubInstant b) l

/-- Python `enumerate(episodes, start=1)` at source line 318: pair each episode of
the sorted list with its 1-based sequence number. -/
def numberEpisodes (l : List Episode) : List (Nat × Episode) :=
  List.enumFrom 1 l

/-! ## URL filters (source lines 192-196 and 209-213)

A configured filter is a compiled regex with one capturing group; it is
modelled by its `findall` function, which returns the list of first-group
captures of the non-overlapping matches (empty when the pattern does not
match). -/

/-- The `findall` function of a compiled single-group regex. -/
abbrev Pattern := String → List String

/-- The URL-filter idiom used for both `episodeUrlFilter` and
`artUrlFilter`:

  try: processed = re.compile(cfg[key]).findall(raw)[0]
  except KeyError: processed = raw

An absent key raises `KeyError`, which is caught, so the raw URL is used.
A present pattern that does not match leaves `findall` empty and `[0]`
raises `IndexError`, which is NOT caught and propagates. -/
def resolveUrl (filt : Option Pattern) (raw : String) : Except PyErr String :=
  match filt with
  | none => .ok raw
  | some pat =>
    match pat raw with
    | [] => .error .indexError
    | u :: _ => .ok u

/-- Holds exactly when `resolveUrl` does not raise. -/
def resolveOk (filt : Option Pattern) (raw : String) : Bool :=
  match resolveUrl filt raw with
  | .ok _ => true
  | .error _ => false

/-! ## External collaborators -/

/-- A successful `requests.get` response: body bytes (kept as their decoded
text), the `Content-Type` header, and whether `mutagen.File` recognizes the
body as a taggable audio container (it returns `None` otherwise). -/
structure NetResp where
  content : String
  contentType : String
  taggable : Bool
deriving DecidableEq, Repr

/-- The network: a URL either yields a response or raises. -/
abbrev Net := String → Except PyErr NetResp

/-- A partial model of Python's `mimetypes.guess_extension` standard table:
a pure lookup that yields `none` when the MIME type has no mapping.  Only
presence or absence of a mapping matters to the claims; the extension
strings are representative entries of the standard map. -/
def mimetypes_guess_extension (mime : String) : Option String :=
  if mime == "audio/mpeg" then some ".mp3"
  else if mime == "audio/mp4" then some ".mp4"
  else if mime == "audio/ogg" then some ".ogg"
  else if mime == "image/jpeg" then some ".jpg"
  else if mime == "image/png" then some ".png"
  else none

/-- How a Python f-string renders an `Optional[str]`: `None` prints as the
four characters `None`. -/
def pyStrOfOption : Option String → String
  | none => "None"
  | some s => s

/-! ## Side effects and state -/

/-- The observable side effects of a run, in order. -/
inductive Effect where
  /-- A `requests.get` of the given URL (recorded whether or not it
      succeeds). -/
  | fetch (url : String)
  /-- A write to the given path (`open(..., 'wb')` or `tag_file.save()`). -/
  | write (path : String)
  /-- Python `os.makedirs` of the given directory. -/
  | mkdir (path : String)
  /-- The `time.sleep(0.1)` dry-run pause. -/
  | sleep
deriving DecidableEq, Repr

/-- The file system, as the set (order-irrelevant list) of existing paths. -/
abbrev FS := List String

/-- Create a path if absent (file write or `makedirs`); existence is all the
script ever queries. -/
def insertFS (p : String) (fs : FS) : FS :=
  if p ∈ fs then fs else fs ++ [p]

/-- Outcome of a pipeline fragment: the file system afterwards, the effects
performed, and the Python exception that escaped, if any. -/
structure StepResult where
  fs : FS
  effects : List Effect
  err : Option PyErr
deriving DecidableEq, Repr

/-! ## `process_podcast` (source lines 152-274) -/

/-- The channel-level tag values built once per source
(`podcast_config['podcast_tags']`, source lines 301-308). -/
structure ChannelTags where
  album : String
  art : String
  artMime : String
  artist : String
  album_artist : String
  copyright : String
deriving Repr

/-- The per-source configuration handed to `process_podcast`. -/
structure PodcastConfig where
  outDir : String
  episodeUrlFilter : Option Pattern
  artUrlFilter : Option Pattern
  tags : ChannelTags

/-- The destination path derived at source lines 181-189:
`outDir + clean_filename(f"{date}_ep{n}_{title}{extension}")` where
`extension = mimetypes.guess_extension(enclosure type)` (rendered `None`
by the f-string when the lookup fails). -/
def full_path_of (episode_number : Nat) (ep : Episode) (pc : PodcastConfig) : String :=
  let date_string := out_date (extract_date ep)
  let filename := clean_filename
    (date_string ++ "_ep" ++ toString episode_number ++ "_"
      ++ ep.title ++ pyStrOfOption (mimetypes_guess_extension ep.enclosureType))
  pc.outDir ++ filename

/-- The tail of the work branch once the artwork bytes are settled (source
lines 224-265): fetch the media at the resolved URL, write the body to
`full_path` (`open(full_path, 'wb')`), then tag it with mutagen —
`mutagen.File` returns `None` on an unrecognized container and the
subsequent item assignment raises `TypeError`; on success `tag_file.save()`
writes the file again.  `fx` carries the effects already performed by the
artwork step. -/
def fetchAndTag (net : Net) (processed_url full_path : String) (fs : FS)
    (fx : List Effect) : StepResult :=
  match net processed_url with
  | .error e => ⟨fs, fx ++ [.fetch processed_url], some e⟩
  | .ok html =>
    if html.taggable then
      ⟨insertFS full_path fs,
        fx ++ [.fetch processed_url, .write full_path, .write full_path], none⟩
    else
      ⟨insertFS full_path fs,
        fx ++ [.fetch processed_url, .write full_path], some .typeError⟩

/-- The work branch of `process_podcast` (source lines 199-265): resolve and
fetch the episode art (falling back to the channel art bytes, with no
network call, when the episode has none), then fetch, write and tag the
media. -/
def downloadEpisode (net : Net) (processed_url full_path : String)
    (ep : Episode) (pc : PodcastConfig) (fs : FS) : StepResult :=
  match ep.episodeArtUrl with
  | some artUrl =>
    match resolveUrl pc.artUrlFilter artUrl with
    | .error e => ⟨fs, [], some e⟩
    | .ok pau =>
      match net pau with
      | .error e => ⟨fs, [.fetch pau], some e⟩
      | .ok _ => fetchAndTag net processed_url full_path fs [.fetch pau]
  | none => fetchAndTag net processed_url full_path fs []

/-- Function `process_podcast` (source lines 152-274).  Tag bookkeeping, the date
strings and the destination path are pure; the media URL is resolved through
`episodeUrlFilter` BEFORE the existence/dry-run test; then:

  if not os.path.exists(full_path) and not config['dryRun']: <work>
  elif config['dryRun']: time.sleep(0.1)
  else: <skip, prints only> -/
def process_podcast (net : Net) (dryRun : Bool) (episode_number : Nat)
    (ep : Episode) (pc : PodcastConfig) (fs : FS) : StepResult :=
  match resolveUrl pc.episodeUrlFilter ep.enclosureUrl with
  | .error e => ⟨fs, [], some e⟩
  | .ok processed_url =>
    if full_path_of episode_number ep pc ∉ fs ∧ dryRun = false then
      downloadEpisode net processed_url (full_path_of episode_number ep pc) ep pc fs
    else if dryRun = true then ⟨fs, [.sleep], none⟩
    else ⟨fs, [], none⟩

/-- The episode loop of `main` (source lines 318-319):
`for i, episode in enumerate(episodes, start=1): process_podcast(i, ...)`.
There is no per-episode exception handler, so the first escaping exception
ends the loop (and the run). -/
def runEpisodes (net : Net) (dryRun : Bool) (pc : PodcastConfig) :
    Nat → List Episode → FS → StepResult
  | _, [], fs => ⟨fs, [], none⟩
  | n, ep :: rest, fs =>
    let r := process_podcast net dryRun n ep pc fs
    match r.err with
    | some _ => r
    | none =>
      let r2 := runEpisodes net dryRun pc (n + 1) rest r.fs
      ⟨r2.fs, r.effects ++ r2.effects, r2.err⟩

/-! ## `get_rss` (source lines 65-88) and the per-source loop of `main` -/

/-- A Python value that is either `bytes` (carrying its UTF-8 decoding) or
`str`.  `requests.get(...).content` is `bytes`; `open(...).read()` in text
mode is `str`. -/
inductive PyValue where
  | pyBytes (decoded : String)
  | pyStr (s : String)
deriving DecidableEq, Repr

/-- Python `value.decode("UTF-8")`: defined on `bytes`; Python 3 `str` has no
`decode` method, so calling it raises `AttributeError`. -/
def pyDecode : PyValue → Except PyErr String
  | .pyBytes d => .ok d
  | .pyStr _ => .error .attributeError

/-- The text content of either kind of value (`ET.fromstring` accepts
both). -/
def pyValueText : PyValue → String
  | .pyBytes d => d
  | .pyStr s => s

/-- The parsed fields `main` reads from the feed document (channel title,
copyright, image URL, `itunes:author`, and the `channel/item` list). -/
structure Feed where
  channelTitle : String
  channelCopyright : String
  channelImageUrl : String
  channelAuthor : String
  items : List Episode
deriving Repr

/-- One entry of `config['podList']`. -/
structure Source where
  name : String
  rssFeedUrl : String
  episodeUrlFilter : Option Pattern
  artUrlFilter : Option Pattern

/-- The ambient collaborators of a run: the network, the local file reader
(`none` = missing file), the namespace-regex `findall`
(`re.findall(config['namespaceRegex'], text)`), the XML parse plus element
lookups performed on the document, the expanded `outPath` (with trailing
slash), and the process-wide `dryRun` flag. -/
structure Env where
  net : Net
  readFile : String → Option String
  nsOf : String → List (String × String)
  parseFeed : String → Except PyErr Feed
  outPath : String
  dryRun : Bool

/-- Function `get_rss` (source lines 65-88):

  if xml_location[0:4] == 'http': xml = requests.get(...).content  # bytes
  else: xml = open(xml_location).read()                            # str
  ns = dict(re.findall(config['namespaceRegex'], xml.decode("UTF-8")))
  return xml, ns

Returns the effects performed together with the `(xml, ns)` pair or the
escaping exception. -/
def get_rss (env : Env) (xml_location : String) :
    List Effect × Except PyErr (PyValue × List (String × String)) :=
  let fetched : List Effect × Except PyErr PyValue :=
    if (xml_location.take 4) = "http" then
      match env.net xml_location with
      | .error e => ([.fetch xml_location], .error e)
      | .ok resp => ([.fetch xml_location], .ok (.pyBytes resp.content))
    else
      match env.readFile xml_location with
      | none => ([], .error .fileNotFoundError)
      | some text => ([], .ok (.pyStr text))
  match fetched with
  | (fx, .error e) => (fx, .error e)
  | (fx, .ok xml) =>
    match pyDecode xml with
    | .error e => (fx, .error e)
    | .ok decoded => (fx, .ok (xml, env.nsOf decoded))

/-- The body of `main`'s per-source loop (source lines 281-319): build
`outDir` and create it if missing, fetch and parse the feed, fetch the
channel image, sort the episodes, write `cover.<ext>`, then run the episode
loop. -/
def runSource (env : Env) (src : Source) (fs : FS) : StepResult :=
  let outDir := env.outPath ++ src.name ++ "/"
  let made := if outDir ∈ fs then (fs, ([] : List Effect))
              else (fs ++ [outDir], [Effect.mkdir outDir])
  let fs0 := made.1
  let fx0 := made.2
  match get_rss env src.rssFeedUrl with
  | (fx1, .error e) => ⟨fs0, fx0 ++ fx1, some e⟩
  | (fx1, .ok (xml, _ns)) =>
    match env.parseFeed (pyValueText xml) with
    | .error e => ⟨fs0, fx0 ++ fx1, some e⟩
    | .ok feed =>
      match env.net feed.channelImageUrl with
      | .error e => ⟨fs0, fx0 ++ fx1 ++ [.fetch feed.channelImageUrl], some e⟩
      | .ok r =>
        let episodes := date_sort feed.items
        let pc : PodcastConfig :=
          ⟨outDir, src.episodeUrlFilter, src.artUrlFilter,
            ⟨feed.channelTitle, r.content, r.contentType,
              feed.channelAuthor, feed.channelTitle, feed.channelCopyright⟩⟩
        let coverPath := outDir ++ "cover"
          ++ pyStrOfOption (mimetypes_guess_extension r.contentType)
        let fs1 := insertFS coverPath fs0
        let fxPre := fx0 ++ fx1
          ++ [.fetch feed.channelImageUrl, .write coverPath]
        let rest := runEpisodes env.net env.dryRun pc 1 episodes fs1
        ⟨rest.fs, fxPre ++ rest.effects, rest.err⟩

/-- Function `main` (source lines 277-319): process the sources in order; an
exception escaping one source ends the whole run (there is no handler). -/
def mainLoop (env : Env) : List Source → FS → StepResult
  | [], fs => ⟨fs, [], none⟩
  | src :: rest, fs =>
    let r := runSource env src fs
    match r.err with
    | some _ => r
    | none =>
      let r2 := mainLoop env rest r.fs
      ⟨r2.fs, r.effects ++ r2.effects, r2.err⟩

/-! ## Helper lemmas: the sanitizer -/

/-- No character of the allowed set is whitespace. -/
lemma good_character_not_space : ∀ c ∈ good_character.data, isPySpace c = false := by
  decide

/-- Python `re.sub(r"\s+", '_', s)` leaves a whitespace-free string unchanged. -/
lemma subWsAux_eq_of_no_space :
    ∀ (b : Bool) (l : List Char), (∀ c ∈ l, isPySpace c = false) → subWsAux b l = l := by
  intro b l
  induction l generalizing b with
  | nil => intro _; rfl
  | cons c cs ih =>
    intro h
    have hc := h c (List.mem_cons_self c cs)
    simp only [subWsAux, hc, Bool.false_eq_true, if_false]
    exact congrArg (c :: ·) (ih false fun d hd => h d (List.mem_cons_of_mem c hd))

/-- Every character of `clean_filename`'s output belongs to the allowed set. -/
lemma mem_good_of_mem_clean (s : String) :
    ∀ c ∈ (clean_filename s).data, c ∈ good_character.data := by
  intro c hc
  have h := List.mem_filter.mp hc
  exact of_decide_eq_true h.2

/-- A string whose characters are all allowed and non-whitespace is a fixed
point of `clean_filename`. -/
lemma clean_filename_fixed (t : String)
    (h1 : ∀ c ∈ t.data, isPySpace c = false)
    (h2 : ∀ c ∈ t.data, c ∈ good_character.data) :
    clean_filename t = t := by
  unfold clean_filename
  rw [subWsAux_eq_of_no_space false t.data h1,
    List.filter_eq_self.mpr fun c hc => decide_eq_true (h2 c hc)]

/-! ## Claim theorems: the sanitizer -/

/-- C6.  For every input string, `clean_filename` is exactly the two-phase
algorithm — collapse each whitespace run to a single underscore, then drop
every character outside the fixed allowed set — and consequently its output
contains only characters of the allowed set and no whitespace. -/
theorem clean_filename_correct (s : String) :
    clean_filename s
      = String.mk ((subWsAux false s.data).filter
          fun lett => decide (lett ∈ good_character.data))
    ∧ ∀ c ∈ (clean_filename s).data,
        c ∈ good_character.data ∧ isPySpace c = false := by
  refine ⟨rfl, fun c hc => ?_⟩
  have hg := mem_good_of_mem_clean s c hc
  exact ⟨hg, good_character_not_space c hg⟩

/-- C7 counterexample.  On the spec's own example input the function does
NOT return the value the spec names: the period is in the allowed character
set, so `"Ep."` keeps its dot. -/
theorem clean_filename_example_ne :
    clean_filename "Ep. 5: The Rëturn!" ≠ "Ep_5_The_Rëturn" := by
  decide

/-- C7 amended.  On `"Ep. 5: The Rëturn!"` the function returns
`"Ep._5_The_Rëturn"`: the `:` and `!` are dropped, but the `.` is retained
because `.` belongs to the allowed set. -/
theorem clean_filename_example :
    clean_filename "Ep. 5: The Rëturn!" = "Ep._5_The_Rëturn" := by
  decide

/-- C10.  `clean_filename` is idempotent: its output has no whitespace and
only allowed characters, and such strings are fixed points. -/
theorem clean_filename_idempotent (s : String) :
    clean_filename (clean_filename s) = clean_filename s := by
  refine clean_filename_fixed (clean_filename s) (fun c hc => ?_) (mem_good_of_mem_clean s)
  exact good_character_not_space c (mem_good_of_mem_clean s c hc)

/-! ## Helper lemmas: the ordering -/

/-- Inserting `x` commutes with filtering the episodes of one fixed
timestamp: the elements `orderedInsert` passes over all have a strictly
smaller key than `x`, so none of them shares `x`'s timestamp. -/
lemma filter_key_orderedInsert (t : Int) (x : Episode) (l : List Episode) :
    (List.orderedInsert (fun a b => pubInstant a ≤ pubInstant b) x l).filter
        (fun e => decide (pubInstant e = t))
      = if pubInstant x = t
        then x :: l.filter (fun e => decide (pubInstant e = t))
        else l.filter (fun e => decide (pubInstant e = t)) := by
  induction l with
  | nil =>
    simp only [List.orderedInsert, List.filter]
    by_cases hx : pubInstant x = t <;> simp [hx]
  | cons y ys ih =>
    simp only [List.orderedInsert]
    by_cases hxy : pubInstant x ≤ pubInstant y
    · rw [if_pos hxy]
      by_cases hx : pubInstant x = t <;> simp [List.filter_cons, hx]
    · rw [if_neg hxy]
      have hylt : pubInstant y < pubInstant x := lt_of_not_le hxy
      by_cases hx : pubInstant x = t
      · have hy : ¬ pubInstant y = t := by
          intro h; rw [hx] at hylt; exact absurd h (ne_of_lt hylt)
        simp [List.filter_cons, hy, ih, hx]
      · by_cases hy : pubInstant y = t <;> simp [List.filter_cons, hy, ih, hx]

/-- Stability of the sort: for each timestamp, the subsequence of episodes
carrying it is unchanged. -/
lemma filter_key_date_sort (t : Int) :
    ∀ l : List Episode,
      (date_sort l).filter (fun e => decide (pubInstant e = t))
        = l.filter (fun e => decide (pubInstant e = t)) := by
  intro l
  induction l with
  | nil => rfl
  | cons x xs ih =>
    show (List.orderedInsert _ x (date_sort xs)).filter _ = _
    rw [filter_key_orderedInsert]
    by_cases hx : pubInstant x = t <;> simp [List.filter_cons, hx, ih]

/-- Python `enumerate(_, start=n)` yields the dense index range as first
components. -/
lemma map_fst_enumFrom (n : Nat) :
    ∀ l : List Episode, (List.enumFrom n l).map Prod.fst = List.range' n l.length := by
  intro l
  induction l generalizing n with
  | nil => rfl
  | cons x xs ih => simp [List.enumFrom, List.range', ih]

/-- Combining a weak and a strict pairwise bound. -/
lemma pairwise_lt_of_le_of_ne {l : List Episode}
    (h1 : l.Pairwise fun a b => pubInstant a ≤ pubInstant b)
    (h2 : l.Pairwise fun a b => pubInstant a ≠ pubInstant b) :
    l.Pairwise fun a b => pubInstant a < pubInstant b := by
  induction l with
  | nil => exact List.Pairwise.nil
  | cons x xs ih =>
    rcases List.pairwise_cons.mp h1 with ⟨hx1, hxs1⟩
    rcases List.pairwise_cons.mp h2 with ⟨hx2, hxs2⟩
    exact List.pairwise_cons.mpr
      ⟨fun y hy => lt_of_le_of_ne (hx1 y hy) (hx2 y hy), ih hxs1 hxs2⟩

/-- C2.  `date_sort` permutes the feed items into ascending publication
order; it is stable (per timestamp the original feed order survives);
`enumerate(..., start=1)` then assigns the dense 1-based sequence numbers
over the sorted result; and when all timestamps are distinct the sorted
timestamps are strictly increasing, so sequence numbers strictly increase
with publication time. -/
theorem date_sort_correct (l : List Episode) :
    List.Perm (date_sort l) l
    ∧ (date_sort l).Pairwise (fun a b => pubInstant a ≤ pubInstant b)
    ∧ (∀ t : Int, (date_sort l).filter (fun e => decide (pubInstant e = t))
        = l.filter (fun e => decide (pubInstant e = t)))
    ∧ (numberEpisodes (date_sort l)).map Prod.fst = List.range' 1 l.length
    ∧ ((l.Pairwise fun a b => pubInstant a ≠ pubInstant b) →
        (date_sort l).Pairwise fun a b => pubInstant a < pubInstant b) := by
  haveI : IsTotal Episode (fun a b => pubInstant a ≤ pubInstant b) :=
    ⟨fun a b => le_total _ _⟩
  haveI : IsTrans Episode (fun a b => pubInstant a ≤ pubInstant b) :=
    ⟨fun _ _ _ hab hbc => le_trans hab hbc⟩
  have hperm : List.Perm (date_sort l) l := List.perm_insertionSort _ l
  have hsorted : (date_sort l).Pairwise fun a b => pubInstant a ≤ pubInstant b :=
    List.sorted_insertionSort _ l
  refine ⟨hperm, hsorted, fun t => filter_key_date_sort t l, ?_, fun hne => ?_⟩
  · rw [numberEpisodes, map_fst_enumFrom, hperm.length_eq]
  · refine pairwise_lt_of_le_of_ne hsorted ?_
    exact (hperm.pairwise_iff fun h hba => h hba.symm).mpr hne

/-- Scenario episode of §8 of the spec: published 2023-01-10. -/
def epScenA : Episode :=
  ⟨"A", "", ⟨2023, 1, 10, 10, 0, 0, 0⟩, "http://m/a.mp3", "audio/mpeg", none⟩

/-- Scenario episode: published 2023-03-01 (second in feed order). -/
def epScenB : Episode :=
  ⟨"B", "", ⟨2023, 3, 1, 10, 0, 0, 0⟩, "http://m/b.mp3", "audio/mpeg", none⟩

/-- Scenario episode: published 2023-02-15 (third in feed order). -/
def epScenC : Episode :=
  ⟨"C", "", ⟨2023, 2, 15, 10, 0, 0, 0⟩, "http://m/c.mp3", "audio/mpeg", none⟩

/-- C2 witness: the spec's §8 scenario — three episodes arriving in feed
order A (Jan 10), B (Mar 1), C (Feb 15) are sorted chronologically to
A, C, B, numbered 1, 2, 3, with strictly increasing timestamps. -/
theorem date_sort_correct_witness :
    (numberEpisodes (date_sort [epScenA, epScenB, epScenC])).map Prod.fst = [1, 2, 3]
    ∧ date_sort [epScenA, epScenB, epScenC] = [epScenA, epScenC, epScenB]
    ∧ (date_sort [epScenA, epScenB, epScenC]).Pairwise
        (fun a b => pubInstant a < pubInstant b) := by
  have h := date_sort_correct [epScenA, epScenB, epScenC]
  exact ⟨h.2.2.2.1.trans (by decide), by decide, h.2.2.2.2 (by decide)⟩

/-! ## Helper lemmas: the download pipeline -/

lemma mem_insertFS_of_mem {p : String} (q : String) {fs : FS} (h : p ∈ fs) :
    p ∈ insertFS q fs := by
  unfold insertFS
  split
  · exact h
  · exact List.mem_append_left _ h

lemma self_mem_insertFS (q : String) (fs : FS) : q ∈ insertFS q fs := by
  unfold insertFS
  split
  · assumption
  · exact List.mem_append_right _ (List.mem_singleton.mpr rfl)

/-- Function `fetchAndTag` only ever grows the file set. -/
lemma fetchAndTag_mono {p : String} (net : Net) (pu fp : String) (fs : FS)
    (fx : List Effect) (h : p ∈ fs) : p ∈ (fetchAndTag net pu fp fs fx).fs := by
  unfold fetchAndTag
  cases net pu with
  | error e => exact h
  | ok html =>
    dsimp only
    split <;> exact mem_insertFS_of_mem fp h

/-- The work branch only ever grows the file set. -/
lemma downloadEpisode_mono {p : String} (net : Net) (pu fp : String)
    (ep : Episode) (pc : PodcastConfig) (fs : FS) (h : p ∈ fs) :
    p ∈ (downloadEpisode net pu fp ep pc fs).fs := by
  unfold downloadEpisode
  cases ep.episodeArtUrl with
  | none => exact fetchAndTag_mono net pu fp fs [] h
  | some artUrl =>
    dsimp only
    cases resolveUrl pc.artUrlFilter artUrl with
    | error e => exact h
    | ok pau =>
      dsimp only
      cases net pau with
      | error e => exact h
      | ok _ => exact fetchAndTag_mono net pu fp fs [Effect.fetch pau] h

/-- Function `process_podcast` only ever grows the file set. -/
lemma process_podcast_mono {p : String} (net : Net) (dryRun : Bool) (n : Nat)
    (ep : Episode) (pc : PodcastConfig) (fs : FS) (h : p ∈ fs) :
    p ∈ (process_podcast net dryRun n ep pc fs).fs := by
  unfold process_podcast
  cases resolveUrl pc.episodeUrlFilter ep.enclosureUrl with
  | error e => exact h
  | ok pu =>
    dsimp only
    split
    · exact downloadEpisode_mono net pu _ ep pc fs h
    · split <;> exact h

/-- When the derived destination path already exists and dry-run is off,
`process_podcast` reaches the skip branch: the file system is untouched and
no effect is performed (the URL-filter resolution, which precedes the
existence test in the source, can still raise). -/
lemma process_podcast_skip (net : Net) (n : Nat) (ep : Episode)
    (pc : PodcastConfig) (fs : FS) (hmem : full_path_of n ep pc ∈ fs) :
    process_podcast net false n ep pc fs
      = ⟨fs, [],
          match resolveUrl pc.episodeUrlFilter ep.enclosureUrl with
          | .ok _ => none
          | .error e => some e⟩ := by
  unfold process_podcast
  cases resolveUrl pc.episodeUrlFilter ep.enclosureUrl with
  | error e => rfl
  | ok pu =>
    dsimp only
    rw [if_neg (by simp [hmem]), if_neg (by simp)]


/-- A clean `fetchAndTag` run leaves the destination file on disk. -/
lemma fetchAndTag_success (net : Net) (pu fp : String) (fs : FS)
    (fx : List Effect) (h : (fetchAndTag net pu fp fs fx).err = none) :
    fp ∈ (fetchAndTag net pu fp fs fx).fs := by
  revert h
  unfold fetchAndTag
  cases net pu with
  | error e => exact fun h => Option.noConfusion h
  | ok html =>
    dsimp only
    cases html.taggable with
    | false => exact fun h => Option.noConfusion h
    | true => exact fun _ => self_mem_insertFS fp fs

/-- A clean work-branch run leaves the destination file on disk. -/
lemma downloadEpisode_success (net : Net) (pu fp : String) (ep : Episode)
    (pc : PodcastConfig) (fs : FS)
    (h : (downloadEpisode net pu fp ep pc fs).err = none) :
    fp ∈ (downloadEpisode net pu fp ep pc fs).fs := by
  revert h
  unfold downloadEpisode
  cases ep.episodeArtUrl with
  | none => exact fun h => fetchAndTag_success net pu fp fs [] h
  | some artUrl =>
    dsimp only
    cases resolveUrl pc.artUrlFilter artUrl with
    | error e => exact fun h => Option.noConfusion h
    | ok pau =>
      dsimp only
      cases net pau with
      | error e => exact fun h => Option.noConfusion h
      | ok _ => exact fun h => fetchAndTag_success net pu fp fs [Effect.fetch pau] h

/-- A clean `process_podcast` run (dry-run off) leaves the destination file
on disk, and its media URL had resolved successfully. -/
lemma process_podcast_success (net : Net) (n : Nat) (ep : Episode)
    (pc : PodcastConfig) (fs : FS)
    (h : (process_podcast net false n ep pc fs).err = none) :
    full_path_of n ep pc ∈ (process_podcast net false n ep pc fs).fs
    ∧ resolveOk pc.episodeUrlFilter ep.enclosureUrl = true := by
  revert h
  unfold process_podcast
  cases hr : resolveUrl pc.episodeUrlFilter ep.enclosureUrl with
  | error e => exact fun h => Option.noConfusion h
  | ok pu =>
    dsimp only
    by_cases hc : full_path_of n ep pc ∉ fs ∧ false = false
    · rw [if_pos hc]
      intro h
      exact ⟨downloadEpisode_success net pu _ ep pc fs h,
        by unfold resolveOk; rw [hr]⟩
    · rw [if_neg hc, if_neg (by simp)]
      intro _
      refine ⟨?_, by unfold resolveOk; rw [hr]⟩
      by_contra hnm
      exact hc ⟨hnm, rfl⟩

/-- Unfolding equation for the episode loop on a non-empty list. -/
lemma runEpisodes_cons (net : Net) (dry : Bool) (pc : PodcastConfig)
    (n : Nat) (ep : Episode) (rest : List Episode) (fs : FS) :
    runEpisodes net dry pc n (ep :: rest) fs
      = match (process_podcast net dry n ep pc fs).err with
        | some _ => process_podcast net dry n ep pc fs
        | none =>
          ⟨(runEpisodes net dry pc (n + 1) rest
              (process_podcast net dry n ep pc fs).fs).fs,
           (process_podcast net dry n ep pc fs).effects
             ++ (runEpisodes net dry pc (n + 1) rest
                  (process_podcast net dry n ep pc fs).fs).effects,
           (runEpisodes net dry pc (n + 1) rest
              (process_podcast net dry n ep pc fs).fs).err⟩ := rfl

/-- The episode loop only ever grows the file set. -/
lemma runEpisodes_mono (net : Net) (dry : Bool) (pc : PodcastConfig) :
    ∀ (l : List Episode) (n : Nat) (fs : FS) (p : String),
      p ∈ fs → p ∈ (runEpisodes net dry pc n l fs).fs := by
  intro l
  induction l with
  | nil => intro n fs p h; exact h
  | cons ep rest ih =>
    intro n fs p h
    rw [runEpisodes_cons]
    cases (process_podcast net dry n ep pc fs).err with
    | some e => exact process_podcast_mono net dry n ep pc fs h
    | none => exact ih (n + 1) _ p (process_podcast_mono net dry n ep pc fs h)

/-- Re-running the episode loop after a clean (dry-run off) run skips every
episode: the file set is unchanged, no effect at all is performed and no
error is raised. -/
lemma runEpisodes_idem (net : Net) (pc : PodcastConfig) :
    ∀ (l : List Episode) (n : Nat) (fs : FS),
      (runEpisodes net false pc n l fs).err = none →
      runEpisodes net false pc n l ((runEpisodes net false pc n l fs).fs)
        = ⟨(runEpisodes net false pc n l fs).fs, [], none⟩ := by
  intro l
  induction l with
  | nil => intro n fs _; rfl
  | cons ep rest ih =>
    intro n fs h
    cases herr : (process_podcast net false n ep pc fs).err with
    | some e =>
      exfalso
      simp [runEpisodes_cons, herr] at h
    | none =>
      have hfirst : runEpisodes net false pc n (ep :: rest) fs
          = ⟨(runEpisodes net false pc (n + 1) rest
                (process_podcast net false n ep pc fs).fs).fs,
             (process_podcast net false n ep pc fs).effects
               ++ (runEpisodes net false pc (n + 1) rest
                    (process_podcast net false n ep pc fs).fs).effects,
             (runEpisodes net false pc (n + 1) rest
                (process_podcast net false n ep pc fs).fs).err⟩ := by
        rw [runEpisodes_cons, herr]
      have hresterr : (runEpisodes net false pc (n + 1) rest
          (process_podcast net false n ep pc fs).fs).err = none := by
        rw [hfirst] at h
        exact h
      have hsucc := process_podcast_success net n ep pc fs herr
      have hmem : full_path_of n ep pc
          ∈ (runEpisodes net false pc (n + 1) rest
              (process_podcast net false n ep pc fs).fs).fs :=
        runEpisodes_mono net false pc rest (n + 1) _ _ hsucc.1
      have hskip2 : process_podcast net false n ep pc
          (runEpisodes net false pc (n + 1) rest
            (process_podcast net false n ep pc fs).fs).fs
          = ⟨(runEpisodes net false pc (n + 1) rest
                (process_podcast net false n ep pc fs).fs).fs, [], none⟩ := by
        rw [process_podcast_skip net n ep pc _ hmem]
        have hok := hsucc.2
        unfold resolveOk at hok
        cases hu : resolveUrl pc.episodeUrlFilter ep.enclosureUrl with
        | error e => rw [hu] at hok; exact Bool.noConfusion hok
        | ok u => rfl
      rw [hfirst]
      dsimp only
      rw [runEpisodes_cons, hskip2]
      dsimp only
      rw [ih (n + 1) (process_podcast net false n ep pc fs).fs hresterr]
      rfl

/-- In dry-run mode an episode whose URL filter resolves is replaced by
exactly one pause: no fetch, no write, no file-system change. -/
lemma process_podcast_dry (net : Net) (n : Nat) (ep : Episode)
    (pc : PodcastConfig) (fs : FS)
    (hok : resolveOk pc.episodeUrlFilter ep.enclosureUrl = true) :
    process_podcast net true n ep pc fs = ⟨fs, [Effect.sleep], none⟩ := by
  unfold process_podcast
  cases hr : resolveUrl pc.episodeUrlFilter ep.enclosureUrl with
  | error e =>
    unfold resolveOk at hok
    rw [hr] at hok
    exact Bool.noConfusion hok
  | ok pu =>
    dsimp only
    rw [if_neg (by simp), if_pos rfl]

/-- C1.  The derived destination path is the idempotency key: (a) an episode
whose path already exists (dry-run off) is skipped — the file system is
unchanged and no effect (no fetch, no write) is performed; (b) re-running
the whole episode loop after a clean run changes nothing: the second run
returns the identical file set, performs zero effects, and skips every
episode without error. -/
theorem pipeline_idempotent (net : Net) (pc : PodcastConfig) (n : Nat)
    (ep : Episode) (l : List Episode) (fs : FS) :
    (full_path_of n ep pc ∈ fs →
      (process_podcast net false n ep pc fs).effects = []
      ∧ (process_podcast net false n ep pc fs).fs = fs)
    ∧ ((runEpisodes net false pc n l fs).err = none →
      runEpisodes net false pc n l ((runEpisodes net false pc n l fs).fs)
        = ⟨(runEpisodes net false pc n l fs).fs, [], none⟩) := by
  constructor
  · intro hmem
    rw [process_podcast_skip net n ep pc fs hmem]
    exact ⟨rfl, rfl⟩
  · exact runEpisodes_idem net pc l n fs

/-- A network that always delivers a taggable audio body. -/
def netOkAll : Net := fun _ => .ok ⟨"bodybytes", "audio/mpeg", true⟩

/-- A plain per-source configuration with no URL filters. -/
def pcPlain : PodcastConfig :=
  ⟨"out/Pod/", none, none, ⟨"Alb", "artbytes", "image/jpeg", "Auth", "Alb", "cp"⟩⟩

/-- A plain episode with no episode-specific artwork. -/
def epPlain : Episode :=
  ⟨"A", "d", ⟨2023, 1, 10, 8, 30, 0, 0⟩, "http://m/1.mp3", "audio/mpeg", none⟩

/-- C1 witness: concretely, with the destination file already on disk the
episode is skipped without effects; and a second run over a
freshly-populated archive is a no-op. -/
theorem pipeline_idempotent_witness :
    (full_path_of 1 epPlain pcPlain ∈ ["out/Pod/2023-01-10_ep1_A.mp3"]
      ∧ (process_podcast netOkAll false 1 epPlain pcPlain
          ["out/Pod/2023-01-10_ep1_A.mp3"]).effects = []
      ∧ (process_podcast netOkAll false 1 epPlain pcPlain
          ["out/Pod/2023-01-10_ep1_A.mp3"]).fs = ["out/Pod/2023-01-10_ep1_A.mp3"])
    ∧ ((runEpisodes netOkAll false pcPlain 1 [epPlain] []).err = none
      ∧ runEpisodes netOkAll false pcPlain 1 [epPlain]
          ((runEpisodes netOkAll false pcPlain 1 [epPlain] []).fs)
        = ⟨(runEpisodes netOkAll false pcPlain 1 [epPlain] []).fs, [], none⟩) := by
  have hA := (pipeline_idempotent netOkAll pcPlain 1 epPlain [epPlain]
    ["out/Pod/2023-01-10_ep1_A.mp3"]).1 (by decide)
  have hB := (pipeline_idempotent netOkAll pcPlain 1 epPlain [epPlain] []).2 (by decide)
  exact ⟨⟨by decide, hA⟩, ⟨by decide, hB⟩⟩

/-- C5 amended (the part of the claim that holds).  With dry-run on, the
per-episode loop performs no network fetch and no disk write at all: every
episode (whose URL filter resolves, as it must for the run to get past it)
is replaced by exactly one fixed pause, in order, and the archive state is
returned unchanged. -/
theorem dry_run_episode_loop_pure (net : Net) (pc : PodcastConfig) :
    ∀ (l : List Episode) (n : Nat) (fs : FS),
      (∀ ep ∈ l, resolveOk pc.episodeUrlFilter ep.enclosureUrl = true) →
      runEpisodes net true pc n l fs
        = ⟨fs, List.replicate l.length Effect.sleep, none⟩ := by
  intro l
  induction l with
  | nil => intro n fs _; rfl
  | cons ep rest ih =>
    intro n fs h
    rw [runEpisodes_cons,
      process_podcast_dry net n ep pc fs (h ep (List.mem_cons_self ep rest))]
    dsimp only
    rw [ih (n + 1) fs fun e he => h e (List.mem_cons_of_mem ep he)]
    rfl

/-- C5 amended witness: a concrete two-episode dry run is exactly two pauses
and leaves the (empty) archive untouched. -/
theorem dry_run_episode_loop_pure_witness :
    runEpisodes netOkAll true pcPlain 1 [epPlain, epScenB] []
      = ⟨[], [Effect.sleep, Effect.sleep], none⟩ := by
  have h := dry_run_episode_loop_pure netOkAll pcPlain [epPlain, epScenB] 1 []
    (by decide)
  exact h.trans (by decide)

/-! ## Helper lemmas: URL filters in the pipeline -/

/-- With no filter configured the `KeyError` path yields the raw URL. -/
lemma resolveUrl_none (raw : String) : resolveUrl none raw = .ok raw := rfl

/-- A configured filter whose `findall` matches yields the first capture of
the first match. -/
lemma resolveUrl_some_match (pat : Pattern) (raw u : String) (restm : List String)
    (h : pat raw = u :: restm) : resolveUrl (some pat) raw = .ok u := by
  unfold resolveUrl
  dsimp only
  rw [h]

/-- A configured filter whose `findall` is empty raises `IndexError`. -/
lemma resolveUrl_some_nomatch (pat : Pattern) (raw : String) (h : pat raw = []) :
    resolveUrl (some pat) raw = .error .indexError := by
  unfold resolveUrl
  dsimp only
  rw [h]

/-- When the media URL resolves and the path is fresh (dry-run off),
`process_podcast` enters the work branch. -/
lemma process_podcast_work (net : Net) (n : Nat) (ep : Episode)
    (pc : PodcastConfig) (fs : FS) (pu : String)
    (hres : resolveUrl pc.episodeUrlFilter ep.enclosureUrl = .ok pu)
    (hnm : full_path_of n ep pc ∉ fs) :
    process_podcast net false n ep pc fs
      = downloadEpisode net pu (full_path_of n ep pc) ep pc fs := by
  unfold process_podcast
  rw [hres]
  dsimp only
  rw [if_pos ⟨hnm, rfl⟩]

/-- The media fetch of the resolved URL is always attempted by
`fetchAndTag`, whatever the network then does. -/
lemma fetch_mem_fetchAndTag (net : Net) (pu fp : String) (fs : FS)
    (fx : List Effect) : Effect.fetch pu ∈ (fetchAndTag net pu fp fs fx).effects := by
  unfold fetchAndTag
  cases net pu with
  | error e => exact List.mem_append_right _ (by simp)
  | ok html =>
    dsimp only
    cases html.taggable with
    | true => exact List.mem_append_right _ (by simp)
    | false => exact List.mem_append_right _ (by simp)

/-- In the work branch with no episode art, the resolved media URL is
fetched. -/
lemma fetch_mem_downloadEpisode_noart (net : Net) (pu fp : String)
    (ep : Episode) (pc : PodcastConfig) (fs : FS)
    (hart : ep.episodeArtUrl = none) :
    Effect.fetch pu ∈ (downloadEpisode net pu fp ep pc fs).effects := by
  unfold downloadEpisode
  rw [hart]
  exact fetch_mem_fetchAndTag net pu fp fs []

/-- In the work branch with episode art whose URL resolves to `v`, the art
fetch of `v` is attempted. -/
lemma fetch_mem_downloadEpisode_art (net : Net) (pu fp : String)
    (ep : Episode) (pc : PodcastConfig) (fs : FS) (a v : String)
    (hart : ep.episodeArtUrl = some a)
    (hres : resolveUrl pc.artUrlFilter a = .ok v) :
    Effect.fetch v ∈ (downloadEpisode net pu fp ep pc fs).effects := by
  unfold downloadEpisode
  rw [hart]
  dsimp only
  rw [hres]
  dsimp only
  cases net v with
  | error e => simp
  | ok _ =>
    unfold fetchAndTag
    cases net pu with
    | error e => exact List.mem_append_left _ (by simp)
    | ok html =>
      dsimp only
      cases html.taggable with
      | true => exact List.mem_append_left _ (by simp)
      | false => exact List.mem_append_left _ (by simp)

/-- In the work branch, a configured art filter that does not match aborts
the episode with `IndexError` before any fetch. -/
lemma downloadEpisode_art_indexError (net : Net) (pu fp : String)
    (ep : Episode) (pc : PodcastConfig) (fs : FS) (a : String)
    (hart : ep.episodeArtUrl = some a)
    (hres : resolveUrl pc.artUrlFilter a = .error .indexError) :
    downloadEpisode net pu fp ep pc fs = ⟨fs, [], some .indexError⟩ := by
  unfold downloadEpisode
  rw [hart]
  dsimp only
  rw [hres]

/-- C3 counterexample.  A configured filter (here: a compiled regex whose
`findall` finds no match on this URL, e.g. `r"(foo)"`) does NOT fall back
to the raw URL: `findall(raw)[0]` raises an uncaught `IndexError`, because
only `KeyError` — the absent-key case — is caught. -/
theorem url_filter_nonmatch_is_error :
    resolveUrl (some fun _ => []) "http://feed.example/ep1.mp3"
      ≠ Except.ok "http://feed.example/ep1.mp3"
    ∧ resolveUrl (some fun _ => []) "http://feed.example/ep1.mp3"
      = Except.error PyErr.indexError :=
  ⟨fun hcontra => Except.noConfusion hcontra, rfl⟩

/-- C3 amended.  The filter contract that actually holds, for both
`episodeUrlFilter` (media) and `artUrlFilter` (artwork): an ABSENT filter
uses the raw URL unchanged (the caught `KeyError` path); a configured
filter that matches uses the first capture of the first match; a configured
filter that does NOT match raises an uncaught `IndexError` that aborts the
episode with no fetch performed — not the raw URL. -/
theorem url_filter_contract (net : Net) (n : Nat) (ep : Episode)
    (pc : PodcastConfig) (fs : FS) (pat : Pattern) (u : String)
    (restm : List String) (a : String) :
    (pc.episodeUrlFilter = none → full_path_of n ep pc ∉ fs →
      ep.episodeArtUrl = none →
      Effect.fetch ep.enclosureUrl ∈ (process_podcast net false n ep pc fs).effects)
    ∧ (pc.episodeUrlFilter = some pat → pat ep.enclosureUrl = u :: restm →
      full_path_of n ep pc ∉ fs → ep.episodeArtUrl = none →
      Effect.fetch u ∈ (process_podcast net false n ep pc fs).effects)
    ∧ (pc.episodeUrlFilter = some pat → pat ep.enclosureUrl = [] →
      process_podcast net false n ep pc fs = ⟨fs, [], some .indexError⟩)
    ∧ (pc.episodeUrlFilter = none → pc.artUrlFilter = none →
      ep.episodeArtUrl = some a → full_path_of n ep pc ∉ fs →
      Effect.fetch a ∈ (process_podcast net false n ep pc fs).effects)
    ∧ (pc.episodeUrlFilter = none → pc.artUrlFilter = some pat →
      ep.episodeArtUrl = some a → pat a = u :: restm →
      full_path_of n ep pc ∉ fs →
      Effect.fetch u ∈ (process_podcast net false n ep pc fs).effects)
    ∧ (pc.episodeUrlFilter = none → pc.artUrlFilter = some pat →
      ep.episodeArtUrl = some a → pat a = [] →
      full_path_of n ep pc ∉ fs →
      process_podcast net false n ep pc fs = ⟨fs, [], some .indexError⟩) := by
  refine ⟨?_, ?_, ?_, ?_, ?_, ?_⟩
  · intro h1 h2 h3
    rw [process_podcast_work net n ep pc fs ep.enclosureUrl (by rw [h1]; exact resolveUrl_none _) h2]
    exact fetch_mem_downloadEpisode_noart net _ _ ep pc fs h3
  · intro h1 hm h2 h3
    rw [process_podcast_work net n ep pc fs u
      (by rw [h1]; exact resolveUrl_some_match pat _ u restm hm) h2]
    exact fetch_mem_downloadEpisode_noart net _ _ ep pc fs h3
  · intro h1 hm
    unfold process_podcast
    rw [h1, resolveUrl_some_nomatch pat _ hm]
  · intro h1 h2 h3 h4
    rw [process_podcast_work net n ep pc fs ep.enclosureUrl (by rw [h1]; exact resolveUrl_none _) h4]
    exact fetch_mem_downloadEpisode_art net _ _ ep pc fs a a h3 (by rw [h2]; exact resolveUrl_none _)
  · intro h1 h2 h3 hm h4
    rw [process_podcast_work net n ep pc fs ep.enclosureUrl (by rw [h1]; exact resolveUrl_none _) h4]
    exact fetch_mem_downloadEpisode_art net _ _ ep pc fs a u h3
      (by rw [h2]; exact resolveUrl_some_match pat _ u restm hm)
  · intro h1 h2 h3 hm h4
    rw [process_podcast_work net n ep pc fs ep.enclosureUrl (by rw [h1]; exact resolveUrl_none _) h4]
    exact downloadEpisode_art_indexError net _ _ ep pc fs a h3
      (by rw [h2]; exact resolveUrl_some_nomatch pat _ hm)

/-- A pattern model of a configured regex whose single capture group yields
a CDN URL on these inputs. -/
def patMatch : Pattern := fun _ => ["http://cdn/real.mp3"]

/-- A pattern model of a configured regex that matches none of these
inputs. -/
def patMiss : Pattern := fun _ => []

/-- The plain configuration with `patMatch` configured as media filter. -/
def pcFilterMatch : PodcastConfig :=
  ⟨"out/Pod/", some patMatch, none, ⟨"Alb", "artbytes", "image/jpeg", "Auth", "Alb", "cp"⟩⟩

/-- The plain configuration with `patMiss` configured as media filter. -/
def pcFilterMiss : PodcastConfig :=
  ⟨"out/Pod/", some patMiss, none, ⟨"Alb", "artbytes", "image/jpeg", "Auth", "Alb", "cp"⟩⟩

/-- C3 amended witness: with no filter the raw URL is fetched; with a
matching filter the captured URL is fetched; with a non-matching filter the
episode aborts with `IndexError` and nothing is fetched. -/
theorem url_filter_contract_witness :
    Effect.fetch "http://m/1.mp3"
      ∈ (process_podcast netOkAll false 1 epPlain pcPlain []).effects
    ∧ Effect.fetch "http://cdn/real.mp3"
      ∈ (process_podcast netOkAll false 1 epPlain pcFilterMatch []).effects
    ∧ process_podcast netOkAll false 1 epPlain pcFilterMiss []
      = ⟨[], [], some .indexError⟩ := by
  refine ⟨?_, ?_, ?_⟩
  · exact (url_filter_contract netOkAll 1 epPlain pcPlain [] patMatch
      "u" [] "a").1 rfl (by decide) rfl
  · exact (url_filter_contract netOkAll 1 epPlain pcFilterMatch [] patMatch
      "http://cdn/real.mp3" [] "a").2.1 rfl rfl (by decide) rfl
  · exact (url_filter_contract netOkAll 1 epPlain pcFilterMiss [] patMiss
      "u" [] "a").2.2.1 rfl rfl

/-- A network on which the first episode's media URL fails with a
connection error and everything else succeeds. -/
def netFail1 : Net := fun url =>
  if url = "http://m/1.mp3" then .error .connectionError
  else .ok ⟨"bodybytes", "audio/mpeg", true⟩

/-- A second plain episode, dated after `epPlain`. -/
def epSecond : Episode :=
  ⟨"B", "d", ⟨2023, 2, 15, 9, 0, 0, 0⟩, "http://m/2.mp3", "audio/mpeg", none⟩

/-- C4.  Failure is NOT isolated to the failing episode: a media fetch
error on episode 1 ends the loop — episode 2 is never attempted (its URL is
never fetched and its file never appears), and the exception escapes. -/
theorem episode_failure_aborts_rest :
    runEpisodes netFail1 false pcPlain 1 [epPlain, epSecond] []
      = ⟨[], [Effect.fetch "http://m/1.mp3"], some .connectionError⟩
    ∧ Effect.fetch "http://m/2.mp3"
      ∉ (runEpisodes netFail1 false pcPlain 1 [epPlain, epSecond] []).effects
    ∧ full_path_of 2 epSecond pcPlain
      ∉ (runEpisodes netFail1 false pcPlain 1 [epPlain, epSecond] []).fs := by
  exact ⟨by decide, by decide, by decide⟩

/-- An episode whose enclosure MIME type has no extension mapping. -/
def epNoExt : Episode :=
  ⟨"Title", "d", ⟨2023, 1, 10, 0, 0, 0, 0⟩, "http://m/1.mp3", "audio/x-nonsense", none⟩

/-- C8.  An unmapped enclosure MIME type does NOT fail path derivation:
`mimetypes.guess_extension` returns `None`, the f-string renders it as the
literal text `None`, and the episode is fetched, written and tagged at a
path ending in `None` with no error of any kind. -/
theorem unknown_mime_appends_none :
    mimetypes_guess_extension "audio/x-nonsense" = none
    ∧ full_path_of 1 epNoExt pcPlain = "out/Pod/2023-01-10_ep1_TitleNone"
    ∧ process_podcast netOkAll false 1 epNoExt pcPlain []
      = ⟨["out/Pod/2023-01-10_ep1_TitleNone"],
         [Effect.fetch "http://m/1.mp3",
          Effect.write "out/Pod/2023-01-10_ep1_TitleNone",
          Effect.write "out/Pod/2023-01-10_ep1_TitleNone"], none⟩ := by
  exact ⟨rfl, by decide, by decide⟩

/-- A raw feed document (with one namespace declaration). -/
def feedTextOne : String := "<rss xmlns:itunes=\"u\"></rss>"

/-- A network that serves the feed text everywhere. -/
def netFeed : Net := fun _ => .ok ⟨feedTextOne, "text/xml", false⟩

/-- An environment with the feed available both over HTTP and as the local
file `feed.xml`. -/
def envC9 : Env :=
  ⟨netFeed,
   fun p => if p = "feed.xml" then some feedTextOne else none,
   fun _ => [("itunes", "u")],
   fun _ => .error .typeError,
   "out/", false⟩

/-- Equality of `Except` results is decidable (used to evaluate the model
at concrete inputs). -/
instance {e a : Type} [DecidableEq e] [DecidableEq a] : DecidableEq (Except e a) := fun
  | .error x, .error y =>
    if h : x = y then isTrue (by rw [h]) else isFalse fun hc => h (Except.error.inj hc)
  | .error _, .ok _ => isFalse fun hc => Except.noConfusion hc
  | .ok _, .error _ => isFalse fun hc => Except.noConfusion hc
  | .ok x, .ok y =>
    if h : x = y then isTrue (by rw [h]) else isFalse fun hc => h (Except.ok.inj hc)

/-- C9.  `get_rss` does NOT succeed on an existing local file: the text-mode
`open(...).read()` yields a `str`, and the unconditional
`xml.decode("UTF-8")` then raises `AttributeError` (Python 3 `str` has no
`decode`), so only the HTTP branch — whose `requests` content is `bytes` —
can return the text and namespace mapping. -/
theorem get_rss_local_file_fails :
    envC9.readFile "feed.xml" = some feedTextOne
    ∧ get_rss envC9 "feed.xml" = ([], .error .attributeError)
    ∧ get_rss envC9 "http://pod/feed"
      = ([Effect.fetch "http://pod/feed"],
         .ok (.pyBytes feedTextOne, [("itunes", "u")])) := by
  exact ⟨by decide, by decide, by decide⟩

/-- The feed `main` parses in the dry-run scenario: one episode. -/
def feedOne : Feed := ⟨"Alb", "cp", "http://img/cover.jpg", "Auth", [epPlain]⟩

/-- A dry-run environment serving `feedOne`. -/
def envDry : Env :=
  ⟨fun url => if url = "http://img/cover.jpg"
      then .ok ⟨"imgbytes", "image/jpeg", false⟩
      else .ok ⟨feedTextOne, "text/xml", false⟩,
   fun _ => none,
   fun _ => [("itunes", "u")],
   fun _ => .ok feedOne,
   "out/", true⟩

/-- The one-source configuration of the dry-run scenario. -/
def srcOne : Source := ⟨"Pod", "http://pod/feed", none, none⟩

/-- C5 counterexample.  A dry run is NOT free of network and disk effects:
the per-source setup still fetches the feed, fetches the channel artwork,
creates the output directory and rewrites the cover file, mutating the
archive — only the per-episode work is replaced by pauses. -/
theorem dry_run_still_fetches_and_writes :
    Effect.fetch "http://pod/feed" ∈ (runSource envDry srcOne []).effects
    ∧ Effect.fetch "http://img/cover.jpg" ∈ (runSource envDry srcOne []).effects
    ∧ Effect.mkdir "out/Pod/" ∈ (runSource envDry srcOne []).effects
    ∧ Effect.write "out/Pod/cover.jpg" ∈ (runSource envDry srcOne []).effects
    ∧ (runSource envDry srcOne []).fs ≠ [] := by
  exact ⟨by decide, by decide, by decide, by decide, by decide⟩

/-- C6 witness: at a concrete input the two-phase equation holds, and the
character `R` of the output is in the allowed set and is not whitespace. -/
theorem clean_filename_correct_witness :
    clean_filename "a  b:!"
      = String.mk ((subWsAux false "a  b:!".data).filter
          fun lett => decide (lett ∈ good_character.data))
    ∧ ('a' ∈ good_character.data ∧ isPySpace 'a' = false) := by
  have h := clean_filename_correct "a  b:!"
  exact ⟨h.1, h.2 'a' (by decide)⟩
